import Mathlib

/-!
Verification development for the copytrading repository
(`deepseek-copytrader.js` and companion scripts).

The JavaScript is shallowly embedded: JS primitive values become the
inductive `JVal`, JS object shapes relevant to the pipeline become
structures, the mutable `seenPositions : Set` becomes an explicit
insertion-ordered duplicate-free `List JVal` threaded through the
functions, and thrown exceptions become an explicit `threw` flag (for the
detector, whose loop may have already mutated state when it throws) or
an error constructor (for the fetcher).  Numbers are modelled as `ℚ`
(the payloads of interest carry decimal literals such as `0.1`; no NaN
arises in the modelled fragment).
-/

namespace CopyTrader

/-- A JavaScript primitive value as it can appear in a decoded JSON
payload field.  `Option JVal` is used for object fields, with `none`
standing for an absent field (i.e. `undefined`). -/
inductive JVal where
  | vNull
  | vBool (b : Bool)
  | vNum (q : ℚ)
  | vStr (s : String)
deriving DecidableEq, Repr

/-- JS truthiness of a primitive value: `null`, `false`, `0` and `""`
are falsy, everything else modelled here is truthy. -/
def jsTruthy : JVal → Bool
  | .vNull => false
  | .vBool b => b
  | .vNum q => !(q == 0)
  | .vStr s => !(s == "")

/-- Truthiness of a possibly-absent value (`undefined` is falsy). -/
def jsTruthyOpt : Option JVal → Bool
  | none => false
  | some v => jsTruthy v

/-- The fields destructured from a position object by `processAccounts`
(source lines 290-301).  Each field is `Option JVal`: `none` models an
absent property. -/
structure Position where
  entry_oid : Option JVal
  entry_price : Option JVal
  leverage : Option JVal
  quantity : Option JVal
  entry_time : Option JVal
  current_price : Option JVal
  unrealized_pnl : Option JVal
  confidence : Option JVal
  exit_plan : Option JVal
deriving DecidableEq, Repr

/-- A value stored under a symbol key in a `positions` map.
`nullish` (JS `null`/`undefined`) makes destructuring throw a TypeError;
a non-nullish primitive destructures to all-`undefined` fields; an
object carries its fields. -/
inductive PosVal where
  | nullish
  | prim
  | obj (p : Position)
deriving DecidableEq, Repr

/-- The `positions` property of an account.  `absent` covers every value
skipped by the guard `!positions || typeof positions !== "object"`
(source line 285): absent, `null`, other falsy values and truthy
non-objects.  `objMap` is a truthy object, its entries listed in JS
`Object.entries` iteration order. -/
inductive PositionsVal where
  | absent
  | objMap (entries : List (String × PosVal))
deriving DecidableEq, Repr

/-- An account entry as consumed by the filter and the detector.
`model_id` is `none` when the identifier property is absent, `null` or
otherwise falsy-nonstring; a present string `""` is also falsy in JS and
is handled by the match predicate.  (Per spec §3 identifiers are
strings, so truthy non-string identifiers are outside the modelled
domain.) -/
structure Account where
  model_id : Option String
  positions : PositionsVal
deriving DecidableEq, Repr

/-- An element of the `accountTotals` array: `null`/`undefined`
(excluded by `!account`, but throwing when the no-match log path reads
`a.model_id`), a non-nullish primitive (harmless, never matches), or an
object. -/
inductive AccountEntry where
  | nullish
  | prim
  | obj (a : Account)
deriving DecidableEq, Repr

/-- The `accountTotals` property of the payload.  `absent` covers a
missing or falsy value, `notArray` a truthy non-array (rejected by
`Array.isArray`, but making `.map` in the no-match log path throw),
`arr` an actual array. -/
inductive AccountTotalsVal where
  | absent
  | notArray
  | arr (l : List AccountEntry)
deriving DecidableEq, Repr

/-- The decoded response body.  `nullish` is a JSON `null` body (any
property access on it throws); `value` is any non-nullish value,
carrying the classification of its `accountTotals` property (a
non-object primitive body simply has `accountTotals` absent). -/
inductive Payload where
  | nullish
  | value (accountTotals : AccountTotalsVal)
deriving DecidableEq, Repr

/-- ASCII lower-casing of one character, agreeing with JS
`toLowerCase` on the ASCII identifiers of the modelled domain. -/
def lowerChar : Char → Char
  | 'A' => 'a'
  | 'B' => 'b'
  | 'C' => 'c'
  | 'D' => 'd'
  | 'E' => 'e'
  | 'F' => 'f'
  | 'G' => 'g'
  | 'H' => 'h'
  | 'I' => 'i'
  | 'J' => 'j'
  | 'K' => 'k'
  | 'L' => 'l'
  | 'M' => 'm'
  | 'N' => 'n'
  | 'O' => 'o'
  | 'P' => 'p'
  | 'Q' => 'q'
  | 'R' => 'r'
  | 'S' => 's'
  | 'T' => 't'
  | 'U' => 'u'
  | 'V' => 'v'
  | 'W' => 'w'
  | 'X' => 'x'
  | 'Y' => 'y'
  | 'Z' => 'z'
  | c => c

/-- JS `s.toLowerCase()` on ASCII strings. -/
def lowerStr (s : String) : String :=
  String.mk (s.toList.map lowerChar)

/-- Character-list starts-with test. -/
def leadMatch : List Char → List Char → Bool
  | [], _ => true
  | _ :: _, [] => false
  | a :: as, b :: bs => a == b && leadMatch as bs

/-- JS `s.startsWith(pat)`. -/
def strStarts (s pat : String) : Bool :=
  leadMatch pat.toList s.toList

/-- The case-insensitive starts-with test the source applies to an
account identifier (source lines 270-272), abstracted over the list of
target patterns; the source instantiates it with
`["deepseek", "qwen"]`.  A falsy identifier (absent or `""`) is
rejected up front by `!account.model_id`. -/
def matchesPats (pats : List String) : Option String → Bool
  | none => false
  | some s => !(s == "") && pats.any (fun pat => strStarts (lowerStr s) pat)

/-- The body of `findTargetModelAccounts` with the hardcoded pattern list abstracted
(source lines 264-274): malformed payloads yield `[]`, otherwise keep
the array entries that are non-null objects whose identifier matches. -/
def selectAccounts (pats : List String) : Payload → List Account
  | .nullish => []
  | .value .absent => []
  | .value .notArray => []
  | .value (.arr l) =>
      l.filterMap (fun e =>
        match e with
        | .nullish => none
        | .prim => none
        | .obj a => if matchesPats pats a.model_id then some a else none)

/-- The source's `findTargetModelAccounts`: selection with the hardcoded
patterns `"deepseek"` and `"qwen"`. -/
def findTargetModelAccounts (p : Payload) : List Account :=
  selectAccounts ["deepseek", "qwen"] p

/-- An invocation of `openTrade` (the notification hook), with the
arguments the source passes at lines 351-360. -/
structure NewPositionEvent where
  symbol : String
  entry_price : Option JVal
  leverage : Option JVal
  quantity : Option JVal
  entry_time : Option JVal
  entry_oid : JVal
  side : String
  model_id : String
deriving DecidableEq, Repr

/-- Result of running the detector (or a whole cycle): the seen set
after the run, the notifications emitted, the number of
`saveSeenPositions` calls made, and whether the run threw.  When
`threw = true`, `seen`, `events` and `saves` reflect the mutations made
before the throw. -/
structure ProcessResult where
  seen : List JVal
  events : List NewPositionEvent
  saves : Nat
  threw : Bool
deriving DecidableEq, Repr

/-- The inner loop of `processAccounts` over one account's
`Object.entries(positions)` (source lines 290-362).  A `nullish`
position value throws on destructuring; the sentinel guard is
`!entry_oid || entry_oid === -1` (line 303); a fresh oid is added to the
seen set and saved (lines 308-309) before the notification path reads
`model_id` (line 312), which throws if `model_id` is nullish. -/
def processPositionsList (mid : Option String) (entries : List (String × PosVal))
    (seen : List JVal) : ProcessResult :=
  match entries with
  | [] => ⟨seen, [], 0, false⟩
  | (sym, pv) :: rest =>
    match pv with
    | .nullish => ⟨seen, [], 0, true⟩
    | .prim => processPositionsList mid rest seen
    | .obj p =>
      match p.entry_oid with
      | none => processPositionsList mid rest seen
      | some v =>
        if !jsTruthy v || v == JVal.vNum (-1) then
          processPositionsList mid rest seen
        else if v ∈ seen then
          processPositionsList mid rest seen
        else
          match mid with
          | none => ⟨seen ++ [v], [], 1, true⟩
          | some m =>
            let r := processPositionsList mid rest (seen ++ [v])
            ⟨r.seen,
             ⟨sym, p.entry_price, p.leverage, p.quantity, p.entry_time, v, "long", m⟩
               :: r.events,
             r.saves + 1, r.threw⟩

/-- The source's `processAccounts` (lines 276-364) over an already-typed list
of accounts (the source's `!accounts || !Array.isArray(accounts)` guard
is absorbed by the list type).  Accounts with an absent or non-object
`positions` are skipped; a throw inside one account's loop propagates,
abandoning the remaining accounts. -/
def processAccounts (accounts : List Account) (seen : List JVal) : ProcessResult :=
  match accounts with
  | [] => ⟨seen, [], 0, false⟩
  | a :: rest =>
    match a.positions with
    | .absent => processAccounts rest seen
    | .objMap entries =>
      let r := processPositionsList a.model_id entries seen
      if r.threw then r
      else
        let r2 := processAccounts rest r.seen
        ⟨r2.seen, r.events ++ r2.events, r.saves + r2.saves, r2.threw⟩

/-- True when an account's `positions` map holds a `nullish` value, so
that reading `position.entry_oid` on it throws. -/
def accountHasNullishPos (a : Account) : Bool :=
  match a.positions with
  | .absent => false
  | .objMap entries =>
      entries.any (fun e =>
        match e.2 with
        | PosVal.nullish => true
        | _ => false)

/-- Whether `logDetailedData` (source lines 60-193, active since
`LOG_VERBOSE = true`) throws on a payload.  It guards malformed
payloads itself (line 63) and applies the same target filter as
`findTargetModelAccounts`, so it throws exactly when some selected
account's positions map contains a nullish value, read at line 133. -/
def logDetailedDataThrows (p : Payload) : Bool :=
  (findTargetModelAccounts p).any accountHasNullishPos

/-- Whether the "Available models" log expression in the no-match branch
of `pollPositions` (source lines 409-416) throws: it reads
`data.accountTotals` (throws on a null payload) and, when that value is
truthy, calls `.map(a => a.model_id)` on it (throws on a truthy
non-array, and on a null element). -/
def availableModelsLogThrows : Payload → Bool
  | .nullish => true
  | .value .absent => false
  | .value .notArray => true
  | .value (.arr l) =>
      l.any (fun e =>
        match e with
        | AccountEntry.nullish => true
        | _ => false)

/-- Character-list substring test. -/
def subMatch (needle : List Char) : List Char → Bool
  | [] => leadMatch needle []
  | b :: bs => leadMatch needle (b :: bs) || subMatch needle bs

/-- JS `hay.includes(needle)`. -/
def strHasSub (hay needle : String) : Bool :=
  subMatch needle.toList hay.toList

/-- The error object the fetcher inspects: an optional `code` property
and a `message` string. -/
structure FetchError where
  code : Option String
  message : String
deriving DecidableEq, Repr

/-- Outcome of one network attempt as supplied by the environment:
either a decoded payload or a thrown error. -/
inductive FetchOutcome where
  | success (p : Payload)
  | fail (e : FetchError)
deriving DecidableEq, Repr

/-- The source's `isRetryableError` test (lines 227-232). -/
def isRetryableError (e : FetchError) : Bool :=
  e.code == some "ECONNABORTED" || strHasSub e.message "timeout" ||
    e.code == some "ETIMEDOUT" || e.code == some "ECONNRESET" ||
    e.code == some "ENOTFOUND"

/-- The source's `maxRetries` (line 196). -/
def maxRetries : Nat := 3

/-- The source's `retryDelay` in milliseconds (line 197). -/
def retryDelay : Nat := 10000

/-- Result of `fetchPositions`: the returned payload or propagated
error, the number of attempts actually made, and the inter-attempt
delays taken, in order. -/
structure FetchResult where
  success : Option Payload
  failure : Option FetchError
  attemptsMade : Nat
  delays : List Nat
deriving DecidableEq, Repr

/-- The TypeError raised inside `logDetailedData` when a selected
account holds a null position value (read at source line 133); it is
caught by the fetch loop's catch block, found non-retryable, and
rethrown. -/
def logTypeError : FetchError :=
  ⟨none, "Cannot read properties of null (reading 'entry_oid')"⟩

/-- The TypeError raised by the success log at source lines 217-221,
which reads `data.accountTotals` on the freshly decoded body; like every
TypeError it has no `code` and no "timeout" in its message, so it is
non-retryable and is rethrown. -/
def successLogTypeError : FetchError :=
  ⟨none, "Cannot read properties of null (reading 'accountTotals')"⟩

/-- Whether the success log at source lines 217-221 throws: it reads
`data.accountTotals`, which throws exactly when the decoded body is
JSON `null` (property access on any non-null value is safe). -/
def successLogThrows : Payload → Bool
  | .nullish => true
  | .value _ => false

/-- The retry loop of `fetchPositions` (source lines 199-261).  `fuel`
is the number of loop iterations still permitted (`maxRetries`
initially); the zero case is unreachable because the loop only
continues while `attempt < maxRetries`.  A successful response is first
logged by the success log (lines 217-221, whose `data.accountTotals`
read throws on a JSON-null body) and then passed to `logDetailedData`,
both inside the `try` (lines 217-224), so a payload on which either
logging step throws turns into a non-retryable error. -/
def fetchPositionsAux (env : Nat → FetchOutcome) :
    Nat → Nat → List Nat → FetchResult
  | 0, attempt, delaysAcc => ⟨none, some ⟨none, "loop exhausted"⟩, attempt - 1, delaysAcc.reverse⟩
  | fuel + 1, attempt, delaysAcc =>
    match env attempt with
    | .success p =>
      if successLogThrows p then
        ⟨none, some successLogTypeError, attempt, delaysAcc.reverse⟩
      else if logDetailedDataThrows p then
        ⟨none, some logTypeError, attempt, delaysAcc.reverse⟩
      else
        ⟨some p, none, attempt, delaysAcc.reverse⟩
    | .fail e =>
      if isRetryableError e && decide (attempt < maxRetries) then
        fetchPositionsAux env fuel (attempt + 1) (retryDelay :: delaysAcc)
      else
        ⟨none, some e, attempt, delaysAcc.reverse⟩

/-- The source's `fetchPositions` (lines 195-262), driven by an environment
giving the outcome of each attempt (1-indexed). -/
def fetchPositions (env : Nat → FetchOutcome) : FetchResult :=
  fetchPositionsAux env maxRetries 1 []

/-- The source's `POLL_INTERVAL` in milliseconds (line 12). -/
def POLL_INTERVAL : Nat := 15000

/-- The source's `ERROR_RETRY_INTERVAL` in milliseconds (line 13). -/
def ERROR_RETRY_INTERVAL : Nat := 45000

/-- One body of `pollPositions` (source lines 399-450) given the result
of `fetchPositions` and the current seen set: a fetch error is
rethrown; with no matching account the no-match log expression runs
(and may itself throw); otherwise the accounts are processed. -/
def pollPositionsRun (fr : FetchResult) (seen : List JVal) : ProcessResult :=
  match fr.success with
  | none => ⟨seen, [], 0, true⟩
  | some p =>
    let targets := findTargetModelAccounts p
    if targets.isEmpty then
      if availableModelsLogThrows p then ⟨seen, [], 0, true⟩
      else ⟨seen, [], 0, false⟩
    else
      processAccounts targets seen

/-- One full cycle: fetch (with its retry loop and in-`try` logging)
followed by extract and detect. -/
def runCycle (env : Nat → FetchOutcome) (seen : List JVal) : ProcessResult :=
  pollPositionsRun (fetchPositions env) seen

/-- An environment whose every attempt yields the same payload:
the network fetch itself succeeds immediately. -/
def constEnv (p : Payload) : Nat → FetchOutcome := fun _ => .success p

/-- A cycle whose network fetch succeeds at once with payload `p`. -/
def cycleOnPayload (p : Payload) (seen : List JVal) : ProcessResult :=
  runCycle (constEnv p) seen

/-- One iteration of `pollLoop` (source lines 490-502): when the stop
flag has been set (`isRunning = false`, line 491) no cycle runs and
nothing further is scheduled (`none`); otherwise the cycle runs and the
next iteration is scheduled after `ERROR_RETRY_INTERVAL` if it threw,
else after `POLL_INTERVAL`. -/
def pollLoopStep (isRunning : Bool) (cycleThrew : Bool) : Option Nat :=
  if isRunning then
    if cycleThrew then some ERROR_RETRY_INTERVAL else some POLL_INTERVAL
  else
    none

/-- The persisted `seen_positions.json` as found by `loadSeenPositions`:
missing (ENOENT, or any read/parse failure, all of which the catch
block turns into an empty set), a JSON array of primitive values, a
JSON string (strings are iterable, so `new Set(s)` yields its
characters), or any other parsed value (non-iterable: `new Set`
throws, caught, empty set). -/
inductive StoredFile where
  | missing
  | parsedArr (l : List JVal)
  | parsedStr (s : String)
  | parsedOther
deriving DecidableEq, Repr

/-- JS `Set` insertion: keep the first occurrence. -/
def addSeen (acc : List JVal) (v : JVal) : List JVal :=
  if v ∈ acc then acc else acc ++ [v]

/-- JS `new Set(iterable)`: insertion-ordered deduplication. -/
def setFromList (l : List JVal) : List JVal :=
  l.foldl addSeen []

/-- The source's `saveSeenPositions` (lines 38-48): `Array.from` of the seen
set, written as a pretty-printed JSON array; a JSON array of primitives
parses back to the same list, so the persisted form is modelled as that
list. -/
def saveSeenPositions (seen : List JVal) : StoredFile :=
  .parsedArr seen

/-- The source's `loadSeenPositions` (lines 22-36). -/
def loadSeenPositions : StoredFile → List JVal
  | .missing => []
  | .parsedArr l => setFromList l
  | .parsedStr s => setFromList (s.toList.map (fun c => JVal.vStr (String.mk [c])))
  | .parsedOther => []

/-- Modelled from the spec: the repository's second full script — the
one exercised by the bundled test file through `findDeepSeekModel` /
`processPositions` and described by the README as polling
`/api/positions?limit=1000` — is absent from the sources; only this
`accountTotals`-shaped sibling survives.  Per spec §4.3/§6 that script's
Extractor reduces the shape
`{ "positions": [ { "id": string, "positions": {...} } ] }` to tracked
accounts by the same case-insensitive starts-with match on the `id`
field.  The entry list below is that array, each entry already carrying
its identifier in `model_id`. -/
def selectModelEntries (pats : List String) (models : List Account) : List Account :=
  models.filter (fun a => matchesPats pats a.model_id)

/-- Modelled from the spec: one extract-then-detect cycle of the
missing shape-(a) script — select by identifier, then run the Detector
of spec §4.4 (skip sentinel oids, skip seen oids, otherwise add,
persist and notify), which is exactly the surviving source's
`processAccounts`. -/
def shapeACycle (pats : List String) (models : List Account)
    (seen : List JVal) : ProcessResult :=
  processAccounts (selectModelEntries pats models) seen

/-- The rational `0.1` (JS decimal literal), given in normal form so
that equality on it evaluates structurally. -/
def qOneTenth : ℚ := ⟨1, 10, by norm_num, by norm_num⟩

/-- The `BTCUSDT` position of the end-to-end scenario payload. -/
def c1Pos : Position :=
  ⟨some (.vNum 42), some (.vNum 50000), some (.vNum 10), some (.vNum qOneTenth),
   some (.vNum 1700000000), none, none, none, none⟩

/-- The `positions` array of the end-to-end scenario payload: one model
entry with id `"deepseek-v3"` and one `BTCUSDT` position. -/
def c1Models : List Account :=
  [⟨some "deepseek-v3", .objMap [("BTCUSDT", .obj c1Pos)]⟩]

/-- The single notification expected from the end-to-end scenario. -/
def c1Event : NewPositionEvent :=
  ⟨"BTCUSDT", some (.vNum 50000), some (.vNum 10), some (.vNum qOneTenth),
   some (.vNum 1700000000), .vNum 42, "long", "deepseek-v3"⟩

/-- A position carrying the sentinel oid `-1` alongside ordinary other
fields. -/
def sentinelPos : Position :=
  ⟨some (.vNum (-1)), some (.vNum 50000), some (.vNum 10), some (.vNum 2),
   some (.vNum 1700000000), none, none, none, none⟩

/-- A position with a fresh string oid. -/
def demoPos : Position :=
  ⟨some (.vStr "oid-7"), some (.vNum 3100), some (.vNum 5), some (.vNum 2),
   none, none, none, none, none⟩

/-- An account holding `demoPos`. -/
def demoAcct : Account :=
  ⟨some "deepseek-r1", .objMap [("ETHUSDT", .obj demoPos)]⟩

/-- The notification `demoAcct` produces on a fresh seen set. -/
def demoEvent : NewPositionEvent :=
  ⟨"ETHUSDT", some (.vNum 3100), some (.vNum 5), some (.vNum 2),
   none, .vStr "oid-7", "long", "deepseek-r1"⟩

/-- A position with oid `"a1"`. -/
def c3PosA : Position :=
  ⟨some (.vStr "a1"), none, none, none, none, none, none, none, none⟩

/-- A position with oid `"b2"`. -/
def c3PosB : Position :=
  ⟨some (.vStr "b2"), none, none, none, none, none, none, none, none⟩

/-- An account with an absent identifier but a live position: the
notification path throws on it after the oid is recorded. -/
def c3AcctA : Account := ⟨none, .objMap [("AAAUSDT", .obj c3PosA)]⟩

/-- A well-formed account with a live position. -/
def c3AcctB : Account := ⟨some "deepseek-v3", .objMap [("BBBUSDT", .obj c3PosB)]⟩

/-- Two accounts whose first run throws after recording one oid, so the
second run reaches an event the first never emitted. -/
def c3Accounts : List Account := [c3AcctA, c3AcctB]

/-- The notification the second detect run emits for `c3AcctB`. -/
def c3EvB : NewPositionEvent :=
  ⟨"BBBUSDT", none, none, none, none, .vStr "b2", "long", "deepseek-v3"⟩

/-- A position whose oid is the string `"42"`. -/
def pos42 : Position :=
  ⟨some (.vStr "42"), none, none, none, none, none, none, none, none⟩

/-- An account holding `pos42`. -/
def acct42 : Account :=
  ⟨some "deepseek-chat-v3.1", .objMap [("BTCUSDT", .obj pos42)]⟩

/-- An account with a fresh numeric oid. -/
def c8Acct : Account :=
  ⟨some "qwen3-max", .objMap [("SOLUSDT", .obj ⟨some (.vNum 7), none, none, none, none, none, none, none, none⟩)]⟩

/-- A position whose oid is the falsy number `0`. -/
def zeroOidPos : Position :=
  ⟨some (.vNum 0), some (.vNum 2), some (.vNum 10), some (.vNum 1),
   none, none, none, none, none⟩

theorem mem_addSeen (acc : List JVal) (x v : JVal) :
    v ∈ addSeen acc x ↔ v ∈ acc ∨ v = x := by
  unfold addSeen
  by_cases h : x ∈ acc
  · rw [if_pos h]
    constructor
    · exact Or.inl
    · rintro (hv | rfl)
      · exact hv
      · exact h
  · rw [if_neg h]
    simp

theorem mem_foldl_addSeen (l : List JVal) :
    ∀ (acc : List JVal) (v : JVal), v ∈ l.foldl addSeen acc ↔ v ∈ acc ∨ v ∈ l := by
  induction l with
  | nil => simp
  | cons x xs ih =>
    intro acc v
    rw [List.foldl_cons, ih, mem_addSeen]
    constructor
    · rintro ((hv | rfl) | hv)
      · exact Or.inl hv
      · exact Or.inr (List.mem_cons_self _ _)
      · exact Or.inr (List.mem_cons_of_mem _ hv)
    · rintro (hv | hv)
      · exact Or.inl (Or.inl hv)
      · rcases List.mem_cons.mp hv with rfl | hv
        · exact Or.inl (Or.inr rfl)
        · exact Or.inr hv

theorem mem_setFromList (l : List JVal) (v : JVal) :
    v ∈ setFromList l ↔ v ∈ l := by
  rw [setFromList, mem_foldl_addSeen]
  simp

theorem processPositionsList_spec (mid : Option String) (entries : List (String × PosVal)) :
    ∀ seen : List JVal,
      (∀ v ∈ seen, v ∈ (processPositionsList mid entries seen).seen) ∧
      (∀ v ∈ (processPositionsList mid entries seen).seen,
          v ∈ seen ∨ (jsTruthy v = true ∧ v ≠ JVal.vNum (-1) ∧ v ∉ seen)) ∧
      (∀ ev ∈ (processPositionsList mid entries seen).events,
          ev.entry_oid ∉ seen ∧ ev.entry_oid ∈ (processPositionsList mid entries seen).seen ∧
          jsTruthy ev.entry_oid = true ∧ ev.entry_oid ≠ JVal.vNum (-1)) ∧
      ((processPositionsList mid entries seen).events.map NewPositionEvent.entry_oid).Nodup := by
  induction entries with
  | nil =>
    intro seen
    refine ⟨fun v hv => ?_, fun v hv => ?_, fun ev hev => ?_, ?_⟩ <;>
      simp_all [processPositionsList]
  | cons head rest ih =>
    intro seen
    obtain ⟨sym, pv⟩ := head
    cases pv with
    | nullish =>
      refine ⟨fun v hv => ?_, fun v hv => ?_, fun ev hev => ?_, ?_⟩ <;>
        simp_all [processPositionsList]
    | prim =>
      simpa only [processPositionsList] using ih seen
    | obj p =>
      cases hoid : p.entry_oid with
      | none =>
        simpa only [processPositionsList, hoid] using ih seen
      | some w =>
        by_cases hsent : (!jsTruthy w || w == JVal.vNum (-1)) = true
        · simpa only [processPositionsList, hoid, hsent, if_true] using ih seen
        · have hsentF : (!jsTruthy w || w == JVal.vNum (-1)) = false := by
            simpa using hsent
          have hw : jsTruthy w = true ∧ w ≠ JVal.vNum (-1) := by
            constructor
            · by_contra hc
              simp [Bool.not_eq_true] at hc
              simp [hc] at hsentF
            · intro hc
              simp [hc] at hsentF
          by_cases hmem : w ∈ seen
          · simpa only [processPositionsList, hoid, hsentF, Bool.false_eq_true,
              if_false, if_pos hmem] using ih seen
          · cases mid with
            | none =>
              have key :
                  processPositionsList none ((sym, PosVal.obj p) :: rest) seen =
                    ⟨seen ++ [w], [], 1, true⟩ := by
                simp only [processPositionsList, hoid, hsentF, Bool.false_eq_true, if_false,
                  if_neg hmem]
              rw [key]
              refine ⟨fun v hv => ?_, fun v hv => ?_, fun ev hev => ?_, ?_⟩
              · simp [hv]
              · rcases List.mem_append.mp hv with h | h
                · exact Or.inl h
                · have : v = w := by simpa using h
                  subst this
                  exact Or.inr ⟨hw.1, hw.2, hmem⟩
              · simp at hev
              · simp
            | some m =>
              have key :
                  processPositionsList (some m) ((sym, PosVal.obj p) :: rest) seen =
                    ⟨(processPositionsList (some m) rest (seen ++ [w])).seen,
                     ⟨sym, p.entry_price, p.leverage, p.quantity, p.entry_time, w, "long", m⟩
                       :: (processPositionsList (some m) rest (seen ++ [w])).events,
                     (processPositionsList (some m) rest (seen ++ [w])).saves + 1,
                     (processPositionsList (some m) rest (seen ++ [w])).threw⟩ := by
                simp only [processPositionsList, hoid, hsentF, Bool.false_eq_true, if_false,
                  if_neg hmem]
              obtain ⟨ih1, ih2, ih3, ih4⟩ := ih (seen ++ [w])
              rw [key]
              refine ⟨fun v hv => ?_, fun v hv => ?_, fun ev hev => ?_, ?_⟩
              · exact ih1 v (by simp [hv])
              · rcases ih2 v hv with h | ⟨ht, hne, hnm⟩
                · rcases List.mem_append.mp h with h | h
                  · exact Or.inl h
                  · have : v = w := by simpa using h
                    subst this
                    exact Or.inr ⟨hw.1, hw.2, hmem⟩
                · exact Or.inr ⟨ht, hne, fun hc => hnm (by simp [hc])⟩
              · rcases List.mem_cons.mp hev with h | h
                · subst h
                  refine ⟨hmem, ?_, hw.1, hw.2⟩
                  exact ih1 w (by simp)
                · obtain ⟨h1, h2, h3, h4⟩ := ih3 ev h
                  exact ⟨fun hc => h1 (by simp [hc]), h2, h3, h4⟩
              · refine List.nodup_cons.mpr ⟨?_, ih4⟩
                intro hc
                rcases List.mem_map.mp hc with ⟨ev, hev, hoidw⟩
                have := (ih3 ev hev).1
                exact this (by simp [hoidw])

theorem processAccounts_spec (accounts : List Account) :
    ∀ seen : List JVal,
      (∀ v ∈ seen, v ∈ (processAccounts accounts seen).seen) ∧
      (∀ v ∈ (processAccounts accounts seen).seen,
          v ∈ seen ∨ (jsTruthy v = true ∧ v ≠ JVal.vNum (-1) ∧ v ∉ seen)) ∧
      (∀ ev ∈ (processAccounts accounts seen).events,
          ev.entry_oid ∉ seen ∧ ev.entry_oid ∈ (processAccounts accounts seen).seen ∧
          jsTruthy ev.entry_oid = true ∧ ev.entry_oid ≠ JVal.vNum (-1)) ∧
      ((processAccounts accounts seen).events.map NewPositionEvent.entry_oid).Nodup := by
  induction accounts with
  | nil =>
    intro seen
    refine ⟨fun v hv => ?_, fun v hv => ?_, fun ev hev => ?_, ?_⟩ <;>
      simp_all [processAccounts]
  | cons a rest ih =>
    intro seen
    cases hpos : a.positions with
    | absent =>
      simpa only [processAccounts, hpos] using ih seen
    | objMap entries =>
      obtain ⟨p1, p2, p3, p4⟩ := processPositionsList_spec a.model_id entries seen
      by_cases hthrew : (processPositionsList a.model_id entries seen).threw = true
      · have key : processAccounts (a :: rest) seen =
            processPositionsList a.model_id entries seen := by
          simp only [processAccounts, hpos, hthrew, if_true]
        rw [key]
        exact ⟨p1, p2, p3, p4⟩
      · have hthrewF : (processPositionsList a.model_id entries seen).threw = false := by
          simpa using hthrew
        have key : processAccounts (a :: rest) seen =
            ⟨(processAccounts rest (processPositionsList a.model_id entries seen).seen).seen,
             (processPositionsList a.model_id entries seen).events ++
               (processAccounts rest (processPositionsList a.model_id entries seen).seen).events,
             (processPositionsList a.model_id entries seen).saves +
               (processAccounts rest (processPositionsList a.model_id entries seen).seen).saves,
             (processAccounts rest (processPositionsList a.model_id entries seen).seen).threw⟩ := by
          simp only [processAccounts, hpos, hthrewF, Bool.false_eq_true, if_false]
        obtain ⟨ih1, ih2, ih3, ih4⟩ := ih (processPositionsList a.model_id entries seen).seen
        rw [key]
        refine ⟨fun v hv => ?_, fun v hv => ?_, fun ev hev => ?_, ?_⟩
        · exact ih1 v (p1 v hv)
        · rcases ih2 v hv with h | ⟨ht, hne, hnm⟩
          · rcases p2 v h with h' | ⟨ht, hne, hnm⟩
            · exact Or.inl h'
            · exact Or.inr ⟨ht, hne, hnm⟩
          · exact Or.inr ⟨ht, hne, fun hc => hnm (p1 v hc)⟩
        · rcases List.mem_append.mp hev with h | h
          · obtain ⟨h1, h2, h3, h4⟩ := p3 ev h
            exact ⟨h1, ih1 _ h2, h3, h4⟩
          · obtain ⟨h1, h2, h3, h4⟩ := ih3 ev h
            exact ⟨fun hc => h1 (p1 _ hc), h2, h3, h4⟩
        · rw [List.map_append]
          refine List.Nodup.append p4 ih4 ?_
          intro x hx hx2
          rcases List.mem_map.mp hx with ⟨ev, hev, rfl⟩
          rcases List.mem_map.mp hx2 with ⟨ev2, hev2, hoid2⟩
          have h2 := (p3 ev hev).2.1
          have h1 := (ih3 ev2 hev2).1
          rw [hoid2] at h1
          exact h1 h2

/-- C1: for the payload `{"positions":[{"id":"deepseek-v3","positions":
{"BTCUSDT":{entry_oid:42, entry_price:50000, leverage:10, quantity:0.1,
entry_time:1700000000}}}]}` with filter `{"deepseek"}` and an empty seen
set, one extract-then-detect cycle yields exactly one notification, with
symbol `"BTCUSDT"`, entry_oid 42, entry_price 50000, leverage 10 and
quantity 0.1; a second cycle on the identical payload yields none. -/
theorem c1_end_to_end_shape_a :
    (shapeACycle ["deepseek"] c1Models []).events = [c1Event] ∧
    (shapeACycle ["deepseek"] c1Models (shapeACycle ["deepseek"] c1Models []).seen).events
      = [] ∧
    c1Event.symbol = "BTCUSDT" ∧ c1Event.entry_oid = JVal.vNum 42 ∧
    c1Event.entry_price = some (JVal.vNum 50000) ∧
    c1Event.leverage = some (JVal.vNum 10) ∧
    c1Event.quantity = some (JVal.vNum qOneTenth) ∧ qOneTenth = 1 / 10 := by
  refine ⟨by decide, by decide, by decide, by decide, by decide, by decide, by decide, ?_⟩
  simp only [qOneTenth]
  rw [Rat.mk'_eq_divInt, Rat.divInt_eq_div]
  norm_num

/-- C2: a position whose entry_oid is `-1` or absent is skipped by the
detector regardless of its other fields: it contributes no seen-set
change, no save and no notification (first conjunct), and no emitted
notification ever carries the oid `-1` (second conjunct). -/
theorem c2_sentinel_never_notifies :
    (∀ (mid : Option String) (sym : String) (p : Position)
        (rest : List (String × PosVal)) (seen : List JVal),
        p.entry_oid = none ∨ p.entry_oid = some (JVal.vNum (-1)) →
        processPositionsList mid ((sym, PosVal.obj p) :: rest) seen =
          processPositionsList mid rest seen) ∧
    (∀ (accounts : List Account) (seen : List JVal),
        ∀ ev ∈ (processAccounts accounts seen).events, ev.entry_oid ≠ JVal.vNum (-1)) := by
  constructor
  · intro mid sym p rest seen h
    rcases h with h | h
    · simp [processPositionsList, h]
    · simp [processPositionsList, h, jsTruthy]
  · intro accounts seen ev hev
    exact (((processAccounts_spec accounts) seen).2.2.1 ev hev).2.2.2

theorem c2_sentinel_never_notifies_witness :
    processPositionsList (some "deepseek-r1") [("ETHUSDT", PosVal.obj sentinelPos)] [] =
      processPositionsList (some "deepseek-r1") [] [] ∧
    demoEvent.entry_oid ≠ JVal.vNum (-1) :=
  ⟨c2_sentinel_never_notifies.1 (some "deepseek-r1") "ETHUSDT" sentinelPos [] []
      (Or.inr (by decide)),
   c2_sentinel_never_notifies.2 [demoAcct] [] demoEvent (by decide)⟩

/-- C3: running the detector twice on the identical account list, the
second run seeing the seen-set mutations of the first, emits at most one
notification per oid: the combined event list has pairwise distinct
oids, the second run repeats no oid reported by the first, and every
reported oid is non-sentinel. -/
theorem c3_detect_twice_idempotent :
    ∀ (accounts : List Account) (seen : List JVal),
      (((processAccounts accounts seen).events ++
          (processAccounts accounts (processAccounts accounts seen).seen).events).map
        NewPositionEvent.entry_oid).Nodup ∧
      (∀ ev ∈ (processAccounts accounts (processAccounts accounts seen).seen).events,
          ev.entry_oid ∉ (processAccounts accounts seen).events.map NewPositionEvent.entry_oid) ∧
      (∀ ev ∈ (processAccounts accounts seen).events ++
          (processAccounts accounts (processAccounts accounts seen).seen).events,
          jsTruthy ev.entry_oid = true ∧ ev.entry_oid ≠ JVal.vNum (-1)) := by
  intro accounts seen
  obtain ⟨s1a, s1b, s1c, s1d⟩ := processAccounts_spec accounts seen
  obtain ⟨s2a, s2b, s2c, s2d⟩ := processAccounts_spec accounts (processAccounts accounts seen).seen
  refine ⟨?_, ?_, ?_⟩
  · rw [List.map_append]
    refine List.Nodup.append s1d s2d ?_
    intro x hx hx2
    rcases List.mem_map.mp hx with ⟨ev, hev, rfl⟩
    rcases List.mem_map.mp hx2 with ⟨ev2, hev2, hoid2⟩
    have h1 := (s2c ev2 hev2).1
    rw [hoid2] at h1
    exact h1 (s1c ev hev).2.1
  · intro ev hev hc
    rcases List.mem_map.mp hc with ⟨ev1, hev1, hoid1⟩
    exact (s2c ev hev).1 (hoid1 ▸ (s1c ev1 hev1).2.1)
  · intro ev hev
    rcases List.mem_append.mp hev with h | h
    · exact ⟨(s1c ev h).2.2.1, (s1c ev h).2.2.2⟩
    · exact ⟨(s2c ev h).2.2.1, (s2c ev h).2.2.2⟩

theorem c3_detect_twice_idempotent_witness :
    (((processAccounts c3Accounts []).events ++
        (processAccounts c3Accounts (processAccounts c3Accounts []).seen).events).map
      NewPositionEvent.entry_oid).Nodup ∧
    c3EvB.entry_oid ∉ (processAccounts c3Accounts []).events.map NewPositionEvent.entry_oid :=
  ⟨(c3_detect_twice_idempotent c3Accounts []).1,
   (c3_detect_twice_idempotent c3Accounts []).2.1 c3EvB (by decide)⟩

/-- C5: account selection is a case-insensitive starts-with match of the
account identifier against the filter patterns: `"qwen-alpha"` (and its
mixed-case variant) is selected under `{"qwen"}`, `"llama-x"` is not
selected under `{"deepseek","qwen"}`, and the source's hardcoded filter
keeps exactly the matching account. -/
theorem c5_account_selection :
    selectAccounts ["qwen"] (.value (.arr [.obj ⟨some "qwen-alpha", .absent⟩]))
      = [⟨some "qwen-alpha", .absent⟩] ∧
    selectAccounts ["qwen"] (.value (.arr [.obj ⟨some "QwEn-Alpha", .absent⟩]))
      = [⟨some "QwEn-Alpha", .absent⟩] ∧
    selectAccounts ["deepseek", "qwen"] (.value (.arr [.obj ⟨some "llama-x", .absent⟩]))
      = [] ∧
    findTargetModelAccounts
        (.value (.arr [.obj ⟨some "llama-x", .absent⟩, .obj ⟨some "Qwen-Alpha", .absent⟩]))
      = [⟨some "Qwen-Alpha", .absent⟩] := by
  refine ⟨by decide, by decide, by decide, by decide⟩

/-- C6 counterexample: a malformed payload that is JSON `null` makes the
cycle throw (the success log inside `fetchPositions` reads
`data.accountTotals` on it, a non-retryable TypeError), so the cycle
counts as a failure and is rescheduled after the error-retry interval —
contradicting the claim that every malformed payload leaves the cycle
successful. -/
theorem c6_null_payload_cycle_throws :
    (cycleOnPayload Payload.nullish []).threw = true ∧
    cycleOnPayload Payload.nullish [] = ⟨[], [], 0, true⟩ ∧
    pollLoopStep true (cycleOnPayload Payload.nullish []).threw = some ERROR_RETRY_INTERVAL := by
  refine ⟨by decide, by decide, by decide⟩

/-- C6 (amended): a malformed payload that is non-null with a missing or
falsy account list, or whose account list is an array of non-null
entries none of which matches the filter, leaves the cycle throw-free
with no events and no seen-set change (cycle success); but a null
payload (whose `data.accountTotals` read in the fetch success log
throws), a truthy non-array account list, or a null entry in a
no-match account array (both throwing in the no-match log path) each
makes the cycle throw (cycle failure). -/
theorem c6_malformed_payload_handling :
    (∀ seen : List JVal,
        cycleOnPayload (Payload.value .absent) seen = ⟨seen, [], 0, false⟩) ∧
    (∀ (l : List AccountEntry) (seen : List JVal),
        (∀ e ∈ l, e ≠ AccountEntry.nullish) →
        findTargetModelAccounts (.value (.arr l)) = [] →
        cycleOnPayload (.value (.arr l)) seen = ⟨seen, [], 0, false⟩) ∧
    (∀ seen : List JVal, (cycleOnPayload Payload.nullish seen).threw = true) ∧
    (∀ seen : List JVal, (cycleOnPayload (Payload.value .notArray) seen).threw = true) ∧
    (∀ (l : List AccountEntry) (seen : List JVal),
        AccountEntry.nullish ∈ l →
        findTargetModelAccounts (.value (.arr l)) = [] →
        (cycleOnPayload (.value (.arr l)) seen).threw = true) := by
  refine ⟨?_, ?_, ?_, ?_, ?_⟩
  · intro seen
    rfl
  · intro l seen hnn hsel
    have hlog : logDetailedDataThrows (.value (.arr l)) = false := by
      rw [logDetailedDataThrows, hsel]
      rfl
    have havail : availableModelsLogThrows (.value (.arr l)) = false := by
      simp only [availableModelsLogThrows, List.any_eq_false]
      intro e he
      cases e with
      | nullish => exact absurd rfl (hnn _ he)
      | prim => simp
      | obj a => simp
    have hfetch : fetchPositions (constEnv (.value (.arr l))) =
        ⟨some (.value (.arr l)), none, 1, []⟩ := by
      simp [fetchPositions, fetchPositionsAux, maxRetries, constEnv, successLogThrows, hlog]
    simp [cycleOnPayload, runCycle, pollPositionsRun, hfetch, hsel, havail]
  · intro seen
    rfl
  · intro seen
    rfl
  · intro l seen hmem hsel
    have hlog : logDetailedDataThrows (.value (.arr l)) = false := by
      rw [logDetailedDataThrows, hsel]
      rfl
    have havail : availableModelsLogThrows (.value (.arr l)) = true := by
      simp only [availableModelsLogThrows, List.any_eq_true]
      exact ⟨AccountEntry.nullish, hmem, rfl⟩
    have hfetch : fetchPositions (constEnv (.value (.arr l))) =
        ⟨some (.value (.arr l)), none, 1, []⟩ := by
      simp [fetchPositions, fetchPositionsAux, maxRetries, constEnv, successLogThrows, hlog]
    simp [cycleOnPayload, runCycle, pollPositionsRun, hfetch, hsel, havail]

theorem c6_malformed_payload_handling_witness :
    cycleOnPayload (Payload.value (.arr [AccountEntry.prim])) [] = ⟨[], [], 0, false⟩ ∧
    (cycleOnPayload (Payload.value (.arr [AccountEntry.nullish])) []).threw = true :=
  ⟨c6_malformed_payload_handling.2.1 [AccountEntry.prim] [] (by decide) (by decide),
   c6_malformed_payload_handling.2.2.2.2 [AccountEntry.nullish] [] (by decide) (by decide)⟩

/-- C7: persistence round-trips: every oid in the seen set (in
particular one just recorded by the detector) is still a member of the
seen set a fresh load constructs from the persisted form. -/
theorem c7_save_load_roundtrip :
    ∀ (seen : List JVal) (v : JVal), v ∈ seen →
      v ∈ loadSeenPositions (saveSeenPositions seen) := by
  intro seen v hv
  rw [saveSeenPositions, loadSeenPositions, mem_setFromList]
  exact hv

theorem c7_save_load_roundtrip_witness :
    JVal.vStr "42" ∈
      loadSeenPositions (saveSeenPositions (processAccounts [acct42] []).seen) :=
  c7_save_load_roundtrip _ _ (by decide)

/-- C8: seen-set invariants of the detector: every previously seen oid
is still present after a detect run (monotonic growth), and every oid
the run inserted is truthy and differs from `-1` (the sentinel is never
inserted). -/
theorem c8_seenset_invariants :
    ∀ (accounts : List Account) (seen : List JVal),
      (∀ v ∈ seen, v ∈ (processAccounts accounts seen).seen) ∧
      (∀ v ∈ (processAccounts accounts seen).seen,
          v ∈ seen ∨ (jsTruthy v = true ∧ v ≠ JVal.vNum (-1))) := by
  intro accounts seen
  obtain ⟨s1, s2, _, _⟩ := processAccounts_spec accounts seen
  refine ⟨s1, fun v hv => ?_⟩
  rcases s2 v hv with h | ⟨ht, hne, _⟩
  · exact Or.inl h
  · exact Or.inr ⟨ht, hne⟩

theorem c8_seenset_invariants_witness :
    JVal.vNum 99 ∈ (processAccounts [c8Acct] [JVal.vNum 99]).seen ∧
    (jsTruthy (JVal.vNum 7) = true ∧ JVal.vNum 7 ≠ JVal.vNum (-1)) := by
  refine ⟨(c8_seenset_invariants [c8Acct] [JVal.vNum 99]).1 (JVal.vNum 99) (by decide), ?_⟩
  rcases (c8_seenset_invariants [c8Acct] [JVal.vNum 99]).2 (JVal.vNum 7) (by decide) with h | h
  · exact absurd h (by decide)
  · exact h

/-- C9: backoff selection: a cycle that throws schedules the next
iteration after the error-retry interval (45s), a cycle that completes
without error schedules it after the normal poll interval (15s), the
error interval is the longer of the two, and once the stop flag is
cleared no further cycle is scheduled. -/
theorem c9_backoff_selection :
    (∀ (env : Nat → FetchOutcome) (seen : List JVal),
        (runCycle env seen).threw = true →
        pollLoopStep true (runCycle env seen).threw = some ERROR_RETRY_INTERVAL) ∧
    (∀ (env : Nat → FetchOutcome) (seen : List JVal),
        (runCycle env seen).threw = false →
        pollLoopStep true (runCycle env seen).threw = some POLL_INTERVAL) ∧
    (∀ b : Bool, pollLoopStep false b = none) ∧
    POLL_INTERVAL < ERROR_RETRY_INTERVAL := by
  refine ⟨?_, ?_, ?_, by decide⟩
  · intro env seen h
    rw [h]
    rfl
  · intro env seen h
    rw [h]
    rfl
  · intro b
    rfl

theorem c9_backoff_selection_witness :
    pollLoopStep true (runCycle (constEnv Payload.nullish) []).threw
      = some ERROR_RETRY_INTERVAL ∧
    pollLoopStep true (runCycle (constEnv (Payload.value .absent)) []).threw
      = some POLL_INTERVAL :=
  ⟨c9_backoff_selection.1 (constEnv Payload.nullish) [] (by decide),
   c9_backoff_selection.2.1 (constEnv (Payload.value .absent)) [] (by decide)⟩

/-- C10: the detector treats every falsy entry_oid as the sentinel, not
only absent or `-1`: a position whose oid is `0`, `""`, `null` or
`false` is skipped outright — no seen-set change, no save, no
notification — and dually every emitted notification and every oid the
detector inserts is truthy. -/
theorem c10_falsy_oid_skipped :
    (∀ (mid : Option String) (sym : String) (p : Position)
        (rest : List (String × PosVal)) (seen : List JVal) (v : JVal),
        p.entry_oid = some v → jsTruthy v = false →
        processPositionsList mid ((sym, PosVal.obj p) :: rest) seen =
          processPositionsList mid rest seen) ∧
    jsTruthy (JVal.vNum 0) = false ∧ jsTruthy (JVal.vStr "") = false ∧
    jsTruthy JVal.vNull = false ∧ jsTruthy (JVal.vBool false) = false ∧
    (∀ (accounts : List Account) (seen : List JVal),
        ∀ ev ∈ (processAccounts accounts seen).events, jsTruthy ev.entry_oid = true) ∧
    (∀ (accounts : List Account) (seen : List JVal) (v : JVal),
        v ∈ (processAccounts accounts seen).seen → v ∉ seen → jsTruthy v = true) := by
  refine ⟨?_, by decide, by decide, by decide, by decide, ?_, ?_⟩
  · intro mid sym p rest seen v hoid ht
    simp [processPositionsList, hoid, ht]
  · intro accounts seen ev hev
    exact ((processAccounts_spec accounts seen).2.2.1 ev hev).2.2.1
  · intro accounts seen v hv hnm
    rcases (processAccounts_spec accounts seen).2.1 v hv with h | ⟨ht, _, _⟩
    · exact absurd h hnm
    · exact ht

theorem c10_falsy_oid_skipped_witness :
    processPositionsList (some "deepseek-v3") [("XRPUSDT", PosVal.obj zeroOidPos)] [] =
      processPositionsList (some "deepseek-v3") [] [] :=
  c10_falsy_oid_skipped.1 (some "deepseek-v3") "XRPUSDT" zeroOidPos [] []
    (JVal.vNum 0) (by decide) (by decide)

end CopyTrader
